import Mathlib

/-!
Verification development for the wasmtest repository: a shallow embedding of
the result-classification engine of `RunTests` (RunTests.go), the dependency
installer `ensureWasmBrowserTestInstalled` (wasmtest.go), the tagged stream
reader inside `Execute` (tui.go), and the working-directory discipline of
`RunTests`.

Go strings are modelled as lists of characters (`GoStr`); the variadic
progress messages `msgs ...any` are modelled as lists of such strings
(`Msg`), since every component that the classifier inspects is a string and
the code stringifies components with `fmt.Sprintf` before comparing.
-/

namespace Wasmtest

/-- A Go string, modelled as a list of characters. All inputs the
classifier compares against are ASCII, so character-level modelling agrees
with the byte-level operations used by the Go code. -/
abbrev GoStr := List Char

/-- One variadic progress message `msgs ...any` as received by the
progress callback in `RunTests`: a list of stringified components, the
first being the tag. -/
abbrev Msg := List GoStr

/-! ### String helpers mirroring the `strings` package functions used -/

/-- Go `strings.HasPrefix(s, pre)`. -/
def goHasPrefix : GoStr → GoStr → Bool
  | _, [] => true
  | [], _ :: _ => false
  | c :: s, p :: ps => if c = p then goHasPrefix s ps else false

/-- Go `strings.Contains(s, sub)`: `sub` occurs somewhere in `s`. -/
def containsSub : GoStr → GoStr → Bool
  | [], sub => goHasPrefix [] sub
  | c :: t, sub => goHasPrefix (c :: t) sub || containsSub t sub

/-- Go `strings.LastIndex(s, sub)`: the byte index of the last occurrence
of `sub` in `s`, `none` standing for the Go result -1. -/
def lastIndex (s sub : GoStr) : Option Nat :=
  ((List.range (s.length + 1)).filter (fun i => goHasPrefix (s.drop i) sub)).getLast?

/-- Go `strings.TrimPrefix(s, pre)`. -/
def trimPrefix (s pre : GoStr) : GoStr :=
  if goHasPrefix s pre then s.drop pre.length else s

/-- Go `strings.TrimRight(s, "\n")`: strip every trailing newline. -/
def trimRightNl (s : GoStr) : GoStr :=
  (s.reverse.dropWhile (fun c => c = '\n')).reverse

/-- Go `strings.Join(elems, "; ")` as used for the error summary. -/
def sepJoin : List GoStr → GoStr
  | [] => []
  | [x] => x
  | x :: xs => x ++ ("; ".data) ++ sepJoin xs

/-! ### The message scan performed by the progress callback of `RunTests` -/

/-- Tag string "out". -/
def outTag : GoStr := "out".data
/-- Tag string "err". -/
def errTag : GoStr := "err".data
/-- Tag string "error". -/
def errorTag : GoStr := "error".data
/-- Tag string "exit". -/
def exitTag : GoStr := "exit".data
/-- Exit payload "ok". -/
def okStr : GoStr := "ok".data
/-- Exit payload "error". -/
def errorStr : GoStr := "error".data
/-- The success marker "PASS" searched for in "out" lines. -/
def passStr : GoStr := "PASS".data
/-- The marker "--- FAIL:" checked with `strings.Contains`. -/
def failMarkerColon : GoStr := "--- FAIL:".data
/-- The marker "--- FAIL: " checked with `strings.HasPrefix` and trimmed. -/
def failMarker : GoStr := "--- FAIL: ".data
/-- The separator " (" before the duration of a failed test line. -/
def spaceParen : GoStr := " (".data
/-- Fallback detail when an exit-error message carries no text. -/
def unknownError : GoStr := "unknown error".data
/-- Fallback summary when error messages carry no payload text. -/
def unknownErrorOccurred : GoStr := "unknown error occurred during test execution".data

/-- Mirror of RunTests.go lines 105-112: a message counts as an error when
its first component is "error" or "err". -/
def msgIsError (m : Msg) : Bool :=
  match m with
  | t :: _ => if t = errorTag ∨ t = errTag then true else false
  | [] => false

/-- Mirror of RunTests.go lines 107-112: the payload recorded into
`errorMessages` for one message (empty when the message is not an error
message or has no payload component). -/
def errPayload (m : Msg) : List GoStr :=
  match m with
  | t :: rest =>
    if t = errorTag ∨ t = errTag then
      match rest with
      | p :: _ => [p]
      | [] => []
    else []
  | [] => []

/-- Mirror of RunTests.go lines 122-127: trim the "--- FAIL: " marker and
drop the trailing parenthesized duration (only when `strings.LastIndex`
returns a positive index, as the code checks `idx > 0`). -/
def failTestName (output : GoStr) : GoStr :=
  let testName := trimPrefix output failMarker
  match lastIndex testName spaceParen with
  | some idx => if 0 < idx then testName.take idx else testName
  | none => testName

/-- Mirror of RunTests.go lines 114-133: the update of the `failedTests`
accumulator for one message. -/
def updateFailed (failedTests : List GoStr) (m : Msg) : List GoStr :=
  match m with
  | t :: output :: _ =>
    if t = outTag then
      if containsSub output failMarkerColon then
        if goHasPrefix output failMarker then
          let testName := failTestName output
          if testName ≠ [] ∧ testName ∉ failedTests then
            failedTests ++ [testName]
          else failedTests
        else failedTests
      else failedTests
    else failedTests
  | _ => failedTests

/-- The `hasErrors` flag after the whole message sequence was scanned. -/
def hasErrorsOf (msgs : List Msg) : Bool := msgs.any msgIsError

/-- The `errorMessages` accumulator after the whole message sequence was
scanned, in emission order. -/
def errorMessagesOf : List Msg → List GoStr
  | [] => []
  | m :: rest => errPayload m ++ errorMessagesOf rest

/-- The `failedTests` accumulator after the whole message sequence was
scanned, in emission order. -/
def failedTestsOf (msgs : List Msg) : List GoStr :=
  msgs.foldl updateFailed []

/-- Mirror of the per-message condition of RunTests.go lines 200-206: an
"out" message with a payload containing the literal substring "PASS". -/
def isPassOut (m : Msg) : Bool :=
  match m with
  | t :: p :: _ => if t = outTag then containsSub p passStr else false
  | _ => false

/-- Mirror of RunTests.go lines 198-207: some "out" message with a payload
containing the literal substring "PASS". -/
def foundPass (msgs : List Msg) : Bool :=
  msgs.any isPassOut

/-- Mirror of RunTests.go lines 163-166: the error summary attached to the
errors-found failure, `strings.Join(errorMessages, "; ")` with a fallback
text when the join is empty. -/
def errorSummaryOf (msgs : List Msg) : GoStr :=
  let j := sepJoin (errorMessagesOf msgs)
  if j = [] then unknownErrorOccurred else j

/-- Mirror of RunTests.go lines 182-185: the detail of an exit-error
message, taken from the third component when present. -/
def exitDetailOf : List GoStr → GoStr
  | d :: _ => d
  | [] => unknownError

/-- The verdict of the result-classification section of `RunTests`
(RunTests.go lines 156-238). `environmentError` is the NO OUTPUT error,
`failureErrors` the EXECUTION FAILED error driven by error-tagged
messages, `failureExit` the FAILED error driven by an error exit message,
`indeterminate` the PARTIAL SUCCESS error, and `unexpected` the final
UNEXPECTED ERROR fallthrough. -/
inductive Outcome where
  | success : Outcome
  | environmentError : Outcome
  | failureErrors (summary : GoStr) (failing : List GoStr) : Outcome
  | failureExit (detail : GoStr) (failing : List GoStr) : Outcome
  | indeterminate (failing : List GoStr) : Outcome
  | unexpected : Outcome
deriving DecidableEq

/-- Mirror of the classification logic of RunTests.go lines 156-238,
applied to the ordered list of progress messages received: empty check,
then the errors flag, then inspection of the final message. -/
def classify (msgs : List Msg) : Outcome :=
  if msgs.length = 0 then .environmentError
  else if hasErrorsOf msgs then
    .failureErrors (errorSummaryOf msgs) (failedTestsOf msgs)
  else
    match msgs.getLast?.getD [] with
    | t :: s :: restD =>
      if t = exitTag then
        if s = errorStr then
          .failureExit (exitDetailOf restD) (failedTestsOf msgs)
        else if s = okStr then
          if foundPass msgs then .success
          else .indeterminate (failedTestsOf msgs)
        else .unexpected
      else .unexpected
    | _ => .unexpected

/-! ### Dependency installer (wasmtest.go, `ensureWasmBrowserTestInstalled`) -/

/-- Which of the three `select` arms of wasmtest.go lines 78-93 fires for
the install command: it exits with nil error, exits with non-nil error,
the surrounding context deadline fires first, or the two-minute timer
fires first. -/
inductive InstallCmdEvent where
  | exitOk : InstallCmdEvent
  | exitErr : InstallCmdEvent
  | ctxDone : InstallCmdEvent
  | timerFired : InstallCmdEvent
deriving DecidableEq

/-- The environment observed by one call of
`ensureWasmBrowserTestInstalled`: which names `exec.LookPath` finds before
the install, the fate of the install command, and which names
`exec.LookPath` finds on the re-probe after the install. -/
structure InstallWorld where
  pathHasBefore : String → Bool
  installEvent : InstallCmdEvent
  pathHasAfter : String → Bool

/-- The distinct error classes an install attempt can end in, mirroring
the distinct return values of wasmtest.go lines 51-105. -/
inductive InstallResult where
  | ok : InstallResult
  | installCommandFailed : InstallResult
  | timedOut : InstallResult
  | notFoundAfterInstall : InstallResult
deriving DecidableEq

/-- The candidate binary names probed, wasmtest.go line 58. -/
def probes : List String := ["wasmbrowsertest", "go_js_wasm_exec"]

/-- Mirror of the probe loops of wasmtest.go lines 60-65 and 96-101: the
first name found on the path short-circuits. -/
def lookAny (pathHas : String → Bool) : List String → Bool
  | [] => false
  | p :: rest => if pathHas p then true else lookAny pathHas rest

/-- Mirror of wasmtest.go lines 51-105: probe the candidate names, on
total miss run the install command, classify its fate, and on a
successful install re-probe the names once, failing with the distinct
not-found-after-install error when they are still absent. -/
def ensureWasmBrowserTestInstalled (w : InstallWorld) : InstallResult :=
  if lookAny w.pathHasBefore probes then .ok
  else
    match w.installEvent with
    | .exitErr => .installCommandFailed
    | .ctxDone => .timedOut
    | .timerFired => .timedOut
    | .exitOk =>
      if lookAny w.pathHasAfter probes then .ok
      else .notFoundAfterInstall

/-! ### The start gating of `Execute` (tui.go lines 20-58) -/

/-- The environment observed by `ensureWasmExecSymlink` (tui.go lines
101-142): whether a GOPATH could be determined, whether the two binaries
exist under GOPATH/bin, and whether creating the symlink succeeds. -/
structure SymlinkWorld where
  gopathKnown : Bool
  wasmExecExists : Bool
  wasmBrowserTestExists : Bool
  symlinkOk : Bool

/-- Mirror of tui.go lines 101-142: every branch of
`ensureWasmExecSymlink` returns a nil error (missing GOPATH, missing
wasmbrowsertest and a failed symlink are only reported as progress
warnings), so the function never fails. -/
def ensureWasmExecSymlink (s : SymlinkWorld) : Option String :=
  if !s.gopathKnown then none
  else if s.wasmExecExists then none
  else if !s.wasmBrowserTestExists then none
  else if s.symlinkOk then none
  else none

/-- The environment observed by `Execute` when deciding whether to start
the child `go test` process: whether a progress callback was supplied and
whether the two pipes and the start call succeed. -/
structure ExecWorld where
  progressGiven : Bool
  stdoutPipeOk : Bool
  stderrPipeOk : Bool
  startOk : Bool

/-- Mirror of the control flow of tui.go lines 20-58: `Execute` starts the
child process exactly when a progress callback is present, the symlink
setup returned no error, both pipes are obtained and `cmd.Start`
succeeds. No condition consults the state of the background installer
started by `New`. -/
def executeStartsChild (s : SymlinkWorld) (e : ExecWorld) : Bool :=
  if !e.progressGiven then false
  else
    match ensureWasmExecSymlink s with
    | some _ => false
    | none =>
      if !e.stdoutPipeOk then false
      else if !e.stderrPipeOk then false
      else e.startOk

/-! ### Tagged stream reader (the `stream` closure, tui.go lines 61-71) -/

/-- How the modelled stream ends after its content is exhausted: benign
end-of-stream or a mid-stream read error. The Go loop only tests
`err != nil`, which holds in both cases. -/
inductive StreamEnd where
  | eof : StreamEnd
  | readError : StreamEnd
deriving DecidableEq

/-- Mirror of `bufio.Reader.ReadString` over the remaining stream content:
returns the data up to and including the first newline together with the
rest, or all remaining data with a non-nil-error flag when the content is
exhausted before a newline (end of stream or read error). -/
def readLine : GoStr → GoStr × GoStr × Bool
  | [] => ([], [], true)
  | c :: rest =>
    if c = '\n' then ([c], rest, false)
    else
      let p := readLine rest
      (c :: p.1, p.2.1, p.2.2)

/-- Mirror of the `stream` closure of tui.go lines 61-71: repeatedly call
`ReadString`, emit the line with trailing newlines stripped when it is
non-empty, and stop as soon as the read reported a non-nil error. The
end kind is carried but never inspected, because the code only tests
`err != nil`. The returned list is the sequence of payloads passed to
the sink. -/
def streamLines (s : GoStr) (endKind : StreamEnd) : List GoStr :=
  if h : (readLine s).2.2 then
    (if (readLine s).1 = [] then [] else [trimRightNl (readLine s).1])
  else
    (if (readLine s).1 = [] then [] else [trimRightNl (readLine s).1])
      ++ streamLines (readLine s).2.1 endKind
termination_by s.length
decreasing_by
  have key : ∀ t : GoStr, (readLine t).2.2 = false → (readLine t).2.1.length < t.length := by
    intro t
    induction t with
    | nil => simp [readLine]
    | cons c rest ih =>
      by_cases hc : c = '\n'
      · simp [readLine, hc]
      · simp only [readLine, if_neg hc]
        intro hf
        exact Nat.lt_succ_of_lt (ih hf)
  exact key s (by revert h; cases (readLine s).2.2 <;> simp)

/-! ### Working-directory discipline of `RunTests` (RunTests.go lines 40-60) -/

/-- The return paths of `RunTests` after the initial `os.Getwd`. The
paths mirror RunTests.go: the directory check (line 53), the chdir
itself (line 58), the missing-test-files return (line 78), the timeout
return (line 152) and every classification return (lines 156-238). -/
inductive RunExitPath where
  | getwdFailed : RunExitPath
  | dirMissing : RunExitPath
  | chdirFailed : RunExitPath
  | noWasmTestFiles : RunExitPath
  | timedOut : RunExitPath
  | classified (o : Outcome) : RunExitPath

/-- Semantics of one `os.Chdir` call: on success the working directory
becomes the target, on failure it is left unchanged. -/
def applyChdir (cwd : String) (op : String × Bool) : String :=
  if op.2 then op.1 else cwd

/-- The ordered `os.Chdir` calls `RunTests` performs on each return path,
as pairs of target and success flag. When `os.Getwd` fails (line 41) the
function returns before the deferred restore is registered and before
any chdir. On every other path the deferred `os.Chdir(originalDir)`
(line 45) runs last; the model assumes the original directory still
exists so that the deferred restore succeeds. The chdir into the test
directory (line 58) happens only on paths that reach it, and on the
`chdirFailed` path it fails leaving the directory unchanged. -/
def runTestsChdirOps (originalDir dir : String) : RunExitPath → List (String × Bool)
  | .getwdFailed => []
  | .dirMissing => [(originalDir, true)]
  | .chdirFailed => [(dir, false), (originalDir, true)]
  | .noWasmTestFiles => [(dir, true), (originalDir, true)]
  | .timedOut => [(dir, true), (originalDir, true)]
  | .classified _ => [(dir, true), (originalDir, true)]

/-- The working directory after `RunTests` returns through a given path,
starting from the directory that was current at the call. -/
def runTestsFinalCwd (originalDir dir : String) (p : RunExitPath) : String :=
  (runTestsChdirOps originalDir dir p).foldl applyChdir originalDir

/-! ### Concrete scenario inputs used by counterexamples and witnesses -/

/-- A sequence with no message tagged "error", a clean exit-ok final
message and an "out" message containing "PASS", but with one message
tagged "err". -/
def c1cex : List Msg :=
  [[errTag, "boom".data], [outTag, "PASS".data], [exitTag, okStr]]

/-- A sequence with one "error"-tagged message, one "err"-tagged message
and a trailing exit-ok message. -/
def c2cex : List Msg :=
  [[errTag, "A".data], [errorTag, "B".data], [exitTag, okStr]]

/-- A sequence with no message tagged "error" whose final message is an
exit-error message, but with one message tagged "err". -/
def c4cex : List Msg :=
  [[errTag, "A".data], [exitTag, errorStr, "boom".data]]

/-- The exit-error scenario of the spec: two identical failing-test lines
followed by an exit-error message carrying "exit status 1". -/
def c4scenario : List Msg :=
  [[outTag, "running suite".data],
   [outTag, "--- FAIL: TestA (0.00s)".data],
   [outTag, "--- FAIL: TestA (0.00s)".data],
   [exitTag, errorStr, "exit status 1".data]]

/-- The same failing-test line fed twice. -/
def c3twice : List Msg :=
  [[outTag, "--- FAIL: X (0.01s)".data], [outTag, "--- FAIL: X (0.01s)".data]]

/-- An install world in which no candidate binary is ever on the path and
the install command exits successfully. -/
def installWorldMissing : InstallWorld :=
  { pathHasBefore := fun _ => false
    installEvent := .exitOk
    pathHasAfter := fun _ => false }

/-- A symlink world in which the WASM executor is already set up. -/
def symlinkWorldOk : SymlinkWorld :=
  { gopathKnown := true
    wasmExecExists := true
    wasmBrowserTestExists := true
    symlinkOk := true }

/-- An execute world in which a progress callback is supplied and pipes
and process start succeed. -/
def execWorldOk : ExecWorld :=
  { progressGiven := true
    stdoutPipeOk := true
    stderrPipeOk := true
    startOk := true }

/-! ### Supporting lemmas -/

theorem readLine_rest_lt (s : GoStr) (h : (readLine s).2.2 = false) :
    (readLine s).2.1.length < s.length := by
  induction s with
  | nil => simp [readLine] at h
  | cons c rest ih =>
    by_cases hc : c = '\n'
    · simp [readLine, hc]
    · simp only [readLine, if_neg hc] at h ⊢
      exact Nat.lt_succ_of_lt (ih h)

theorem goHasPrefix_self (s : GoStr) : goHasPrefix s s = true := by
  induction s with
  | nil => rfl
  | cons c t ih => simp [goHasPrefix, ih]

theorem goHasPrefix_append (s t : GoStr) : goHasPrefix (s ++ t) s = true := by
  induction s with
  | nil => cases t <;> rfl
  | cons c u ih => simp [goHasPrefix, ih]

theorem containsSub_of_goHasPrefix {s sub : GoStr} (h : goHasPrefix s sub = true) :
    containsSub s sub = true := by
  cases s with
  | nil => exact h
  | cons c t => simp [containsSub, h]

theorem containsSub_append_right {t x : GoStr} (s : GoStr)
    (h : containsSub t x = true) : containsSub (s ++ t) x = true := by
  induction s with
  | nil => simpa using h
  | cons c u ih => simp [containsSub, ih]

theorem containsSub_nil_sub (s : GoStr) : containsSub s [] = true := by
  cases s with
  | nil => rfl
  | cons c t => simp [containsSub, goHasPrefix]

theorem mem_sepJoin_contains : ∀ {l : List GoStr} {x : GoStr},
    x ∈ l → containsSub (sepJoin l) x = true
  | [], x, h => by simp at h
  | [a], x, h => by
    have hx : x = a := by simpa using h
    subst hx
    exact containsSub_of_goHasPrefix (goHasPrefix_self x)
  | a :: b :: t, x, h => by
    rcases List.mem_cons.mp h with rfl | h2
    · show containsSub (x ++ ("; ".data) ++ sepJoin (b :: t)) x = true
      rw [List.append_assoc]
      exact containsSub_of_goHasPrefix (goHasPrefix_append x _)
    · show containsSub (a ++ ("; ".data) ++ sepJoin (b :: t)) x = true
      rw [List.append_assoc]
      exact containsSub_append_right a
        (containsSub_append_right ("; ".data) (mem_sepJoin_contains h2))

theorem eq_nil_of_mem_sepJoin_nil : ∀ {l : List GoStr} {x : GoStr},
    x ∈ l → sepJoin l = [] → x = []
  | [], x, hx, _ => by simp at hx
  | [a], x, hx, h => by
    have : x = a := by simpa using hx
    rw [this]
    exact h
  | a :: b :: t, x, hx, h => by
    exfalso
    have h1 : a ++ ("; ".data) = [] ∧ sepJoin (b :: t) = [] :=
      List.append_eq_nil.mp h
    have h2 : ("; ".data : GoStr) = [] := (List.append_eq_nil.mp h1.1).2
    exact absurd h2 (by decide)

theorem errorSummary_contains {msgs : List Msg} {p : GoStr}
    (hp : p ∈ errorMessagesOf msgs) : containsSub (errorSummaryOf msgs) p = true := by
  by_cases h : sepJoin (errorMessagesOf msgs) = []
  · have hp0 : p = [] := eq_nil_of_mem_sepJoin_nil hp h
    subst hp0
    exact containsSub_nil_sub _
  · have : errorSummaryOf msgs = sepJoin (errorMessagesOf msgs) := by
      simp [errorSummaryOf, h]
    rw [this]
    exact mem_sepJoin_contains hp

theorem mem_errorMessagesOf {m : Msg} {p : GoStr} :
    ∀ {msgs : List Msg}, m ∈ msgs → errPayload m = [p] → p ∈ errorMessagesOf msgs
  | [], hm, _ => by simp at hm
  | m0 :: rest, hm, hp => by
    rcases List.mem_cons.mp hm with rfl | h2
    · show p ∈ errPayload m ++ errorMessagesOf rest
      rw [hp]
      exact List.mem_append_left _ (List.mem_singleton.mpr rfl)
    · exact List.mem_append_right _ (mem_errorMessagesOf h2 hp)

theorem hasErrorsOf_eq_false {msgs : List Msg}
    (h : ∀ m ∈ msgs, msgIsError m = false) : hasErrorsOf msgs = false := by
  simp only [hasErrorsOf, List.any_eq_false]
  intro m hm
  simp [h m hm]

theorem hasErrorsOf_eq_true {msgs : List Msg} {m : Msg} (hm : m ∈ msgs)
    (h : msgIsError m = true) : hasErrorsOf msgs = true := by
  simp only [hasErrorsOf, List.any_eq_true]
  exact ⟨m, hm, h⟩

theorem isPassOut_iff (m : Msg) :
    isPassOut m = true ↔ ∃ p r, m = outTag :: p :: r ∧ containsSub p passStr = true := by
  rcases m with _ | ⟨t, _ | ⟨p, r⟩⟩
  · simp [isPassOut]
  · simp [isPassOut]
  · by_cases ht : t = outTag
    · subst ht
      simp only [isPassOut, if_pos rfl]
      constructor
      · intro hc
        exact ⟨p, r, rfl, hc⟩
      · rintro ⟨p1, r1, heq, hc⟩
        injection heq with h1 h2
        injection h2 with h3 h4
        subst h3
        subst h4
        exact hc
    · simp only [isPassOut, if_neg ht]
      constructor
      · intro hc
        exact absurd hc (by simp)
      · rintro ⟨p1, r1, heq, -⟩
        injection heq with h1 _
        exact absurd h1 ht

theorem foundPass_iff (msgs : List Msg) :
    foundPass msgs = true ↔
      ∃ m ∈ msgs, ∃ p r, m = outTag :: p :: r ∧ containsSub p passStr = true := by
  simp only [foundPass, List.any_eq_true]
  constructor
  · rintro ⟨m, hm, hp⟩
    exact ⟨m, hm, (isPassOut_iff m).mp hp⟩
  · rintro ⟨m, hm, hex⟩
    exact ⟨m, hm, (isPassOut_iff m).mpr hex⟩

theorem updateFailed_nodup (fs : List GoStr) (m : Msg) (h : fs.Nodup) :
    (updateFailed fs m).Nodup := by
  rcases m with _ | ⟨t, _ | ⟨output, r⟩⟩
  · exact h
  · exact h
  · simp only [updateFailed]
    split
    · split
      · split
        · split
          · next hcond =>
            simp [List.nodup_append, h, hcond.2]
          · exact h
        · exact h
      · exact h
    · exact h

theorem updateFailed_idem (fs : List GoStr) (m : Msg) :
    updateFailed (updateFailed fs m) m = updateFailed fs m := by
  rcases m with _ | ⟨t, _ | ⟨output, r⟩⟩
  · rfl
  · rfl
  · simp only [updateFailed]
    by_cases ht : t = outTag
    · rw [if_pos ht, if_pos ht]
      by_cases hc : containsSub output failMarkerColon
      · rw [if_pos hc, if_pos hc]
        by_cases hpre : goHasPrefix output failMarker
        · rw [if_pos hpre, if_pos hpre]
          by_cases hname : failTestName output ≠ [] ∧ failTestName output ∉ fs
          · rw [if_pos hname]
            have : ¬ (failTestName output ≠ [] ∧
                failTestName output ∉ fs ++ [failTestName output]) := by
              intro hcon
              exact hcon.2 (List.mem_append_right _ (List.mem_singleton.mpr rfl))
            rw [if_neg this]
          · rw [if_neg hname, if_neg hname]
        · rw [if_neg hpre, if_neg hpre]
      · rw [if_neg hc, if_neg hc]
    · rw [if_neg ht, if_neg ht]

theorem foldl_updateFailed_nodup (msgs : List Msg) :
    ∀ fs : List GoStr, fs.Nodup → (msgs.foldl updateFailed fs).Nodup := by
  induction msgs with
  | nil => intro fs h; exact h
  | cons m rest ih =>
    intro fs h
    exact ih _ (updateFailed_nodup fs m h)

theorem failedTestsOf_nodup (msgs : List Msg) : (failedTestsOf msgs).Nodup :=
  foldl_updateFailed_nodup msgs [] List.nodup_nil

theorem classify_of_hasErrors {msgs : List Msg} (hne : msgs ≠ [])
    (h : hasErrorsOf msgs = true) :
    classify msgs = .failureErrors (errorSummaryOf msgs) (failedTestsOf msgs) := by
  have hlen : ¬ msgs.length = 0 := by simpa [List.length_eq_zero] using hne
  simp [classify, hlen, h]

theorem readLine_no_nl {s : GoStr} (h : ∀ c ∈ s, c ≠ '\n') :
    readLine s = (s, [], true) := by
  induction s with
  | nil => rfl
  | cons c t ih =>
    have hc : c ≠ '\n' := h c (List.mem_cons_self c t)
    have ht : ∀ x ∈ t, x ≠ '\n' := fun x hx => h x (List.mem_cons_of_mem c hx)
    simp [readLine, hc, ih ht]

theorem readLine_with_nl {pre : GoStr} (post : GoStr) (h : ∀ c ∈ pre, c ≠ '\n') :
    readLine (pre ++ '\n' :: post) = (pre ++ ['\n'], post, false) := by
  induction pre with
  | nil => simp [readLine]
  | cons c t ih =>
    have hc : c ≠ '\n' := h c (List.mem_cons_self c t)
    have ht : ∀ x ∈ t, x ≠ '\n' := fun x hx => h x (List.mem_cons_of_mem c hx)
    simp [readLine, hc, ih ht]

theorem dropWhile_nl_eq_self {l : GoStr} (h : ∀ c ∈ l, c ≠ '\n') :
    l.dropWhile (fun c => c = '\n') = l := by
  cases l with
  | nil => rfl
  | cons c t =>
    have hc : c ≠ '\n' := h c (List.mem_cons_self c t)
    simp [List.dropWhile_cons, hc]

theorem trimRightNl_no_nl {s : GoStr} (h : ∀ c ∈ s, c ≠ '\n') :
    trimRightNl s = s := by
  unfold trimRightNl
  rw [dropWhile_nl_eq_self (fun c hc => h c (List.mem_reverse.mp hc)),
    List.reverse_reverse]

theorem trimRightNl_append_nl {pre : GoStr} (h : ∀ c ∈ pre, c ≠ '\n') :
    trimRightNl (pre ++ ['\n']) = pre := by
  unfold trimRightNl
  have h1 : (pre ++ ['\n']).reverse = '\n' :: pre.reverse := by simp
  rw [h1, List.dropWhile_cons, if_pos (by decide)]
  rw [dropWhile_nl_eq_self (fun c hc => h c (List.mem_reverse.mp hc)),
    List.reverse_reverse]

theorem streamLines_eq (s : GoStr) (k : StreamEnd) :
    streamLines s k =
      if (readLine s).2.2 then
        (if (readLine s).1 = [] then [] else [trimRightNl (readLine s).1])
      else
        (if (readLine s).1 = [] then [] else [trimRightNl (readLine s).1])
          ++ streamLines (readLine s).2.1 k := by
  rw [streamLines]
  by_cases h : (readLine s).2.2
  · rw [dif_pos h, if_pos h]
  · rw [dif_neg h, if_neg h]

theorem streamLines_endKind_aux (n : Nat) : ∀ s : GoStr, s.length < n →
    ∀ k k2 : StreamEnd, streamLines s k = streamLines s k2 := by
  induction n with
  | zero => intro s hs; exact absurd hs (Nat.not_lt_zero _)
  | succ n ih =>
    intro s hs k k2
    rw [streamLines_eq s k, streamLines_eq s k2]
    by_cases h : (readLine s).2.2
    · rw [if_pos h, if_pos h]
    · rw [if_neg h, if_neg h]
      have hlt := readLine_rest_lt s (by revert h; cases (readLine s).2.2 <;> simp)
      rw [ih _ (by omega) k k2]

theorem streamLines_nil (k : StreamEnd) : streamLines [] k = [] := by
  rw [streamLines_eq]
  simp [readLine]

theorem streamLines_complete {pre : GoStr} (post : GoStr) (k : StreamEnd)
    (h : ∀ c ∈ pre, c ≠ '\n') :
    streamLines (pre ++ '\n' :: post) k = pre :: streamLines post k := by
  rw [streamLines_eq, readLine_with_nl post h]
  simp [trimRightNl_append_nl h]

theorem streamLines_partial {s : GoStr} (k : StreamEnd)
    (h : ∀ c ∈ s, c ≠ '\n') (hne : s ≠ []) :
    streamLines s k = [s] := by
  rw [streamLines_eq, readLine_no_nl h]
  simp [hne, trimRightNl_no_nl h]

theorem classify_last_exit {msgs : List Msg} {s : GoStr} {restD : List GoStr}
    (hlast : msgs.getLast? = some (exitTag :: s :: restD))
    (herr : hasErrorsOf msgs = false) :
    classify msgs =
      if s = errorStr then .failureExit (exitDetailOf restD) (failedTestsOf msgs)
      else if s = okStr then
        (if foundPass msgs then .success else .indeterminate (failedTestsOf msgs))
      else .unexpected := by
  have hne : msgs ≠ [] := by
    intro hcon
    rw [hcon] at hlast
    simp at hlast
  have hlen : ¬ msgs.length = 0 := by simpa [List.length_eq_zero] using hne
  simp [classify, hlen, herr, hlast]

/-! ### Claim theorems -/

/-- C5: the empty message sequence (no progress messages received at all)
classifies as the environment-error verdict (the NO OUTPUT error of
RunTests.go lines 157-159), never as a passing run. -/
theorem claim5_empty_sequence_environment_error :
    classify [] = .environmentError ∧ Outcome.environmentError ≠ .success := by
  exact ⟨by decide, by decide⟩

/-- C3: failing-unit extraction deduplicates by exact name. First
conjunct: the extracted list never contains duplicate names, for every
message sequence. Second conjunct: the per-message update is idempotent,
so feeding the same line twice changes nothing on the second pass. Third
conjunct: feeding the line "--- FAIL: X (0.01s)" twice yields exactly
["X"]. Fourth conjunct: the name extraction trims the marker and drops
the trailing parenthesized duration, mapping "--- FAIL: Foo/Bar (0.00s)"
to "Foo/Bar". -/
theorem claim3_failing_units_dedup :
    (∀ msgs : List Msg, (failedTestsOf msgs).Nodup)
    ∧ (∀ (fs : List GoStr) (m : Msg),
        updateFailed (updateFailed fs m) m = updateFailed fs m)
    ∧ failedTestsOf c3twice = ["X".data]
    ∧ failTestName ("--- FAIL: Foo/Bar (0.00s)".data) = "Foo/Bar".data :=
  ⟨failedTestsOf_nodup, updateFailed_idem, by decide, by decide⟩

/-- C1 counterexample: the claim as stated is false. The sequence
`c1cex` contains no message tagged "error", its final message is the
exit-ok message and an "out" message contains "PASS", so the claim
demands the Success outcome; but the code also treats the tag "err" as
an error (RunTests.go line 107), and `c1cex` contains an "err" message,
so classification returns the errors-found failure, not success. -/
theorem claim1_counterexample :
    (∀ m ∈ c1cex, ¬ m.head? = some errorTag)
    ∧ c1cex.getLast? = some [exitTag, okStr]
    ∧ (∃ m ∈ c1cex, ∃ p r, m = outTag :: p :: r ∧ containsSub p passStr = true)
    ∧ classify c1cex = .failureErrors ("boom".data) []
    ∧ classify c1cex ≠ .success := by
  refine ⟨by decide, by decide, ⟨[outTag, "PASS".data], by decide,
    "PASS".data, [], rfl, by decide⟩, by decide, by decide⟩

/-- C1 (amended): for every message sequence whose final message is the
exit-ok message and which contains no message recognized as an error
(tag "error" or "err"), classification yields success if and only if at
least one "out" message payload contains the literal substring "PASS";
when no such message exists the outcome is the distinct indeterminate
(partial success) verdict, never success. -/
theorem claim1_amended_clean_exit_requires_pass
    (msgs : List Msg) (restD : List GoStr)
    (hlast : msgs.getLast? = some (exitTag :: okStr :: restD))
    (hnoerr : ∀ m ∈ msgs, msgIsError m = false) :
    (classify msgs = .success ↔
      ∃ m ∈ msgs, ∃ p r, m = outTag :: p :: r ∧ containsSub p passStr = true)
    ∧ ((¬ ∃ m ∈ msgs, ∃ p r, m = outTag :: p :: r ∧ containsSub p passStr = true) →
        classify msgs = .indeterminate (failedTestsOf msgs)
        ∧ Outcome.indeterminate (failedTestsOf msgs) ≠ .success) := by
  have herr := hasErrorsOf_eq_false hnoerr
  have hcl := classify_last_exit hlast herr
  rw [if_neg (show ¬ (okStr = errorStr) by decide), if_pos rfl] at hcl
  constructor
  · constructor
    · intro hs
      rw [hcl] at hs
      by_cases hfp : foundPass msgs = true
      · exact (foundPass_iff msgs).mp hfp
      · rw [if_neg hfp] at hs
        exact absurd hs (by simp)
    · intro hex
      rw [hcl, if_pos ((foundPass_iff msgs).mpr hex)]
  · intro hnex
    have hfp : ¬ foundPass msgs = true := fun hf => hnex ((foundPass_iff msgs).mp hf)
    rw [hcl, if_neg hfp]
    exact ⟨rfl, by simp⟩

/-- Witness for C1 (amended): a clean run whose output contains "PASS"
classifies as success. -/
theorem claim1_witness :
    classify [[outTag, "PASS".data], [exitTag, okStr]] = .success := by
  have h := claim1_amended_clean_exit_requires_pass
    [[outTag, "PASS".data], [exitTag, okStr]] [] (by decide) (by decide)
  exact h.1.mpr ⟨[outTag, "PASS".data], by decide, "PASS".data, [], rfl, by decide⟩

/-- C2 counterexample: the claim as stated is false in its Detail
clause. The sequence `c2cex` contains an "error"-tagged message with
payload "B", so the claim says the failure detail is built from the
payloads of the "error"-tagged messages alone; but the code also
collects the payload of the "err"-tagged message, producing "A; B". -/
theorem claim2_counterexample :
    (∃ m ∈ c2cex, m.head? = some errorTag)
    ∧ c2cex.getLast? = some [exitTag, okStr]
    ∧ classify c2cex = .failureErrors ("A; B".data) []
    ∧ sepJoin ["B".data] ≠ "A; B".data := by
  refine ⟨⟨[errorTag, "B".data], by decide, by decide⟩, by decide, by decide, by decide⟩

/-- C2 (amended): any message tagged "error" forces the errors-found
failure verdict, regardless of any trailing exit-ok message: the error
check dominates the exit inspection and the PASS heuristic. The detail
is the "; "-join of the payloads of all messages recognized as errors
(tag "error" or "err"), with a fallback text when no payload exists. -/
theorem claim2_amended_error_tag_dominates
    (msgs : List Msg) (hex : ∃ m ∈ msgs, m.head? = some errorTag) :
    classify msgs = .failureErrors (errorSummaryOf msgs) (failedTestsOf msgs)
    ∧ classify msgs ≠ .success := by
  obtain ⟨m, hm, hh⟩ := hex
  have hne : msgs ≠ [] := by
    intro h
    subst h
    simp at hm
  have hie : msgIsError m = true := by
    rcases m with _ | ⟨t, r⟩
    · simp at hh
    · simp only [List.head?_cons, Option.some.injEq] at hh
      subst hh
      simp [msgIsError]
  have hc := classify_of_hasErrors hne (hasErrorsOf_eq_true hm hie)
  exact ⟨hc, by rw [hc]; simp⟩

/-- Witness for C2 (amended): one "error"-tagged message followed by a
clean exit still classifies as the errors-found failure with its payload
as the detail. -/
theorem claim2_witness :
    classify [[errorTag, "bad".data], [exitTag, okStr]]
      = .failureErrors ("bad".data) [] := by
  have h := claim2_amended_error_tag_dominates
    [[errorTag, "bad".data], [exitTag, okStr]]
    ⟨[errorTag, "bad".data], by decide, by decide⟩
  rw [h.1]
  decide

/-- C4 counterexample: the claim as stated is false. The sequence
`c4cex` contains no message tagged "error" and ends with an exit-error
message carrying the text "boom", so the claim demands the exit-failure
verdict with detail "boom"; but the code also treats the tag "err" as an
error (RunTests.go line 107), and the "err" message in `c4cex` routes
classification into the errors-found failure with detail "A" instead. -/
theorem claim4_counterexample :
    (∀ m ∈ c4cex, ¬ m.head? = some errorTag)
    ∧ c4cex.getLast? = some [exitTag, errorStr, "boom".data]
    ∧ classify c4cex = .failureErrors ("A".data) []
    ∧ classify c4cex ≠ .failureExit ("boom".data) [] := by
  refine ⟨by decide, by decide, by decide, by decide⟩

/-- C4 (amended): for every message sequence containing no message
recognized as an error (tag "error" or "err") whose final message is an
exit-error message, classification yields the exit-failure verdict whose
detail is the provided error text, or "unknown error" when the exit
message carries no text; and the spec scenario with two identical
failing-test lines and exit text "exit status 1" yields the exit-failure
verdict with failing units ["TestA"] and detail "exit status 1". -/
theorem claim4_amended_exit_error_detail
    (msgs : List Msg) (restD : List GoStr)
    (hlast : msgs.getLast? = some (exitTag :: errorStr :: restD))
    (hnoerr : ∀ m ∈ msgs, msgIsError m = false) :
    classify msgs = .failureExit (exitDetailOf restD) (failedTestsOf msgs)
    ∧ (restD = [] → exitDetailOf restD = unknownError)
    ∧ (∀ d r2, restD = d :: r2 → exitDetailOf restD = d)
    ∧ classify c4scenario = .failureExit ("exit status 1".data) ["TestA".data] := by
  have herr := hasErrorsOf_eq_false hnoerr
  have hcl := classify_last_exit hlast herr
  rw [if_pos rfl] at hcl
  refine ⟨hcl, ?_, ?_, by decide⟩
  · intro h
    rw [h]
    rfl
  · intro d r2 h
    rw [h]
    rfl

/-- Witness for C4 (amended): the spec scenario itself. -/
theorem claim4_witness :
    classify c4scenario = .failureExit ("exit status 1".data) ["TestA".data] :=
  (claim4_amended_exit_error_detail c4scenario ["exit status 1".data]
    (by decide) (by decide)).2.2.2

/-- C9: a message tagged "err" carrying a payload forces the errors-found
failure verdict for the whole sequence, with the payload collected into
the error messages and contained in the failure detail, and the outcome
is never success, regardless of any trailing exit-ok message or "PASS"
marker elsewhere. -/
theorem claim9_err_tag_forces_failure
    (msgs : List Msg) (m : Msg) (p : GoStr) (r : List GoStr)
    (hm : m ∈ msgs) (hshape : m = errTag :: p :: r) :
    classify msgs = .failureErrors (errorSummaryOf msgs) (failedTestsOf msgs)
    ∧ p ∈ errorMessagesOf msgs
    ∧ containsSub (errorSummaryOf msgs) p = true
    ∧ classify msgs ≠ .success := by
  subst hshape
  have hne : msgs ≠ [] := by
    intro h
    subst h
    simp at hm
  have hie : msgIsError (errTag :: p :: r) = true := by simp [msgIsError]
  have hpay : errPayload (errTag :: p :: r) = [p] := by simp [errPayload]
  have hmem := mem_errorMessagesOf hm hpay
  have hc := classify_of_hasErrors hne (hasErrorsOf_eq_true hm hie)
  exact ⟨hc, hmem, errorSummary_contains hmem, by rw [hc]; simp⟩

/-- Witness for C9: a sequence with an "err" message, an "out" message
containing "PASS" and a clean exit still does not classify as success. -/
theorem claim9_witness :
    classify [[errTag, "boom".data], [outTag, "PASS ok".data], [exitTag, okStr]]
      ≠ .success :=
  (claim9_err_tag_forces_failure
    [[errTag, "boom".data], [outTag, "PASS ok".data], [exitTag, okStr]]
    [errTag, "boom".data] ("boom".data) [] (by decide) rfl).2.2.2

/-- C6 counterexample: the claim as stated is false in its final clause.
In a world where neither candidate binary is ever found and the install
command exits successfully, the installer does fail with the distinct
not-found-after-install error; but the run is not prevented from
starting: the start gating of `Execute` (tui.go) consults only the
progress callback, the symlink setup and the pipe and start calls, never
the state of the background installer launched by `New`, so the child
process starts anyway. -/
theorem claim6_counterexample :
    ensureWasmBrowserTestInstalled installWorldMissing = .notFoundAfterInstall
    ∧ installWorldMissing.pathHasBefore "wasmbrowsertest" = false
    ∧ installWorldMissing.pathHasBefore "go_js_wasm_exec" = false
    ∧ installWorldMissing.installEvent = .exitOk
    ∧ installWorldMissing.pathHasAfter "wasmbrowsertest" = false
    ∧ installWorldMissing.pathHasAfter "go_js_wasm_exec" = false
    ∧ executeStartsChild symlinkWorldOk execWorldOk = true :=
  ⟨rfl, rfl, rfl, rfl, rfl, rfl, rfl⟩

/-- C6 (amended): when neither candidate binary is found before the
install, the install command exits successfully, and the single re-probe
still finds neither, the installer fails with the not-found-after-install
error, which is distinct from the install-command failure and from the
timeout errors. The failure is only logged; it does not prevent a run
from starting. -/
theorem claim6_amended_not_found_after_install (w : InstallWorld)
    (hb1 : w.pathHasBefore "wasmbrowsertest" = false)
    (hb2 : w.pathHasBefore "go_js_wasm_exec" = false)
    (hev : w.installEvent = .exitOk)
    (ha1 : w.pathHasAfter "wasmbrowsertest" = false)
    (ha2 : w.pathHasAfter "go_js_wasm_exec" = false) :
    ensureWasmBrowserTestInstalled w = .notFoundAfterInstall
    ∧ InstallResult.notFoundAfterInstall ≠ .installCommandFailed
    ∧ InstallResult.notFoundAfterInstall ≠ .timedOut := by
  have hlb : lookAny w.pathHasBefore probes = false := by
    simp [lookAny, probes, hb1, hb2]
  have hla : lookAny w.pathHasAfter probes = false := by
    simp [lookAny, probes, ha1, ha2]
  refine ⟨?_, by decide, by decide⟩
  simp [ensureWasmBrowserTestInstalled, hlb, hla, hev]

/-- Witness for C6 (amended): the concrete all-missing install world. -/
theorem claim6_witness :
    ensureWasmBrowserTestInstalled installWorldMissing = .notFoundAfterInstall :=
  (claim6_amended_not_found_after_install installWorldMissing
    rfl rfl rfl rfl rfl).1

/-- C8: the tagged stream reader emits the sink payloads of a stream as
follows. First conjunct: a complete line (newline-free prefix followed by
a newline) is emitted exactly once, with the newline stripped, followed
by the emissions of the rest of the stream. Second conjunct: a final
partial line lacking a trailing newline is still emitted. Third
conjunct: an exhausted stream emits nothing further. Fourth conjunct:
the emissions do not depend on whether the stream ended in a benign
end-of-stream or a mid-stream read error — the error is swallowed and
never reported through the sink. -/
theorem claim8_stream_reader_lines :
    (∀ (pre post : GoStr) (k : StreamEnd), (∀ c ∈ pre, c ≠ '\n') →
        streamLines (pre ++ '\n' :: post) k = pre :: streamLines post k)
    ∧ (∀ (s : GoStr) (k : StreamEnd), (∀ c ∈ s, c ≠ '\n') → s ≠ [] →
        streamLines s k = [s])
    ∧ (∀ k : StreamEnd, streamLines [] k = [])
    ∧ (∀ s : GoStr, streamLines s .readError = streamLines s .eof) :=
  ⟨fun pre post k h => streamLines_complete post k h,
   fun _ k h hne => streamLines_partial k h hne,
   streamLines_nil,
   fun s => streamLines_endKind_aux (s.length + 1) s (Nat.lt_succ_self _) _ _⟩

/-- Witness for C8: the stream "ab\ncd" ending in a read error emits
exactly the two lines "ab" and "cd". -/
theorem claim8_witness :
    streamLines ("ab\ncd".data) .readError = ["ab".data, "cd".data] := by
  have heq : ("ab\ncd".data : GoStr) = "ab".data ++ '\n' :: "cd".data := by decide
  have h1 := claim8_stream_reader_lines.1 ("ab".data) ("cd".data) .readError (by decide)
  have h2 := claim8_stream_reader_lines.2.1 ("cd".data) .readError (by decide) (by decide)
  rw [heq, h1, h2]

/-- C10: on every return path of `RunTests` after the initial `os.Getwd`,
the sequence of `os.Chdir` calls performed (including the deferred
restore registered on line 45) brings the working directory back to the
directory that was current when `RunTests` was called; the model assumes
the original directory still exists so the deferred restore itself
succeeds, and a failed chdir leaves the directory unchanged. -/
theorem claim10_cwd_restored (originalDir dir : String) (p : RunExitPath) :
    runTestsFinalCwd originalDir dir p = originalDir := by
  cases p <;> simp [runTestsFinalCwd, runTestsChdirOps, applyChdir]

end Wasmtest
